import Mathlib

/-!
Verification of the ExaMol selection subsystem (`examol/select/base.py`).

The development shallowly embeds the selector data model and operations:

* `NpArr` models a (rectangular) NumPy ndarray of scalars; `NpArr.shape`
  and `NpArr.ndim` mirror `ndarray.shape` / `ndarray.ndim` (shape inferred
  from the first element along each axis, as NumPy does for well-formed
  nested input).
* `extract_observations` embeds `_extract_observations`; `npShape` models the
  shape NumPy assigns to `np.array(list_of_rows)` (an empty list gives the
  1-D shape `(0,)`).
* `Selector.add_possibilities` embeds the base-class validation and implicit
  re-gathering; `RankingSelector.*` embeds the concrete ranking subclass,
  parametrised by the abstract `_assign_score` scoring policy.
* `heapq.nlargest(k, it, key=score)` is modelled by `nlargest`
  (a stable descending sort followed by `take k`, which is the documented
  semantics `sorted(it, key=key, reverse=True)[:k]`).

Python float values (sample entries, scores, looked-up properties) are
modelled by an arbitrary linearly ordered commutative ring `α`: every claim
proved here is about ordering, negation and list manipulation, which floats
implement exactly on the values involved; concrete witnesses run over `ℤ`.
-/

variable {κ : Type} {α : Type} [LinearOrderedCommRing α]

/-- A pair of candidate key and scalar score: the "option" unit retained by
ranking selectors (`self._options` entries). -/
abbrev SelOpt (κ α : Type) := κ × α

/-- Stable descending insertion: `x` is placed before the first element whose
score is strictly below `x`'s, hence after existing equal-scored elements.
This matches the tie behaviour of Python's stable `sorted(..., reverse=True)`. -/
def insertDesc (x : SelOpt κ α) : List (SelOpt κ α) → List (SelOpt κ α)
  | [] => [x]
  | y :: ys => if y.2 < x.2 then x :: y :: ys else y :: insertDesc x ys

/-- Stable descending (by score) insertion sort. -/
def sortDesc : List (SelOpt κ α) → List (SelOpt κ α)
  | [] => []
  | x :: xs => insertDesc x (sortDesc xs)

/-- Model of `heapq.nlargest(n, it, key=lambda x: x[1])`: the `n`
largest-by-score elements, in descending order (documented as equivalent to
`sorted(it, key=key, reverse=True)[:n]`). -/
def nlargest (n : Nat) (l : List (SelOpt κ α)) : List (SelOpt κ α) :=
  (sortDesc l).take n

/-- Sortedness predicate for descending score order. -/
def SortedDesc (l : List (SelOpt κ α)) : Prop :=
  l.Pairwise (fun p q => q.2 ≤ p.2)

theorem insertDesc_perm (x : SelOpt κ α) (l : List (SelOpt κ α)) :
    List.Perm (insertDesc x l) (x :: l) := by
  induction l with
  | nil => simp [insertDesc]
  | cons y ys ih =>
    simp only [insertDesc]
    split
    · exact List.Perm.refl _
    · exact (List.Perm.cons y ih).trans (List.Perm.swap x y ys)

theorem sortDesc_perm (l : List (SelOpt κ α)) : List.Perm (sortDesc l) l := by
  induction l with
  | nil => simp [sortDesc]
  | cons x xs ih =>
    exact (insertDesc_perm x (sortDesc xs)).trans (List.Perm.cons x ih)

theorem insertDesc_sorted {x : SelOpt κ α} {l : List (SelOpt κ α)}
    (h : SortedDesc l) : SortedDesc (insertDesc x l) := by
  induction l with
  | nil => simp [insertDesc, SortedDesc]
  | cons y ys ih =>
    rcases h with - | ⟨hy, hys⟩
    simp only [insertDesc]
    split
    · rename_i hlt
      refine List.Pairwise.cons ?_ (List.Pairwise.cons hy hys)
      intro z hz
      rcases List.mem_cons.mp hz with rfl | hz
      · exact le_of_lt hlt
      · exact le_trans (hy _ hz) (le_of_lt hlt)
    · rename_i hnlt
      refine List.Pairwise.cons ?_ (ih hys)
      intro z hz
      have hz2 := (insertDesc_perm x ys).mem_iff.mp hz
      rcases List.mem_cons.mp hz2 with rfl | hz2
      · exact le_of_not_lt hnlt
      · exact hy _ hz2

theorem sortDesc_sorted (l : List (SelOpt κ α)) : SortedDesc (sortDesc l) := by
  induction l with
  | nil => simp [sortDesc, SortedDesc]
  | cons x xs ih => exact insertDesc_sorted ih

/-- In a descending-sorted list whose count of elements scoring at least `b`
is at least `k`, every one of the first `k` elements scores at least `b`. -/
theorem take_ge_of_count_ge {m : List (SelOpt κ α)} {k : Nat} {b : α}
    (hs : SortedDesc m) (hc : k ≤ m.countP (fun x => decide (b ≤ x.2))) :
    ∀ a ∈ m.take k, b ≤ a.2 := by
  induction m generalizing k with
  | nil => simp
  | cons x m' ih =>
    cases k with
    | zero => simp
    | succ k' =>
      rcases hs with - | ⟨hx, hm'⟩
      have hpos : 0 < (x :: m').countP (fun x => decide (b ≤ x.2)) :=
        lt_of_lt_of_le (Nat.succ_pos k') hc
      have hex := List.countP_pos_iff.mp hpos
      obtain ⟨y, hy, hby⟩ := hex
      have hbx : b ≤ x.2 := by
        rcases List.mem_cons.mp hy with rfl | hy
        · exact of_decide_eq_true hby
        · exact le_trans (of_decide_eq_true hby) (hx _ hy)
      have hcount : (x :: m').countP (fun x => decide (b ≤ x.2)) =
          m'.countP (fun x => decide (b ≤ x.2)) + 1 :=
        List.countP_cons_of_pos _ _ (decide_eq_true hbx)
      have hc2 : k' ≤ m'.countP (fun x => decide (b ≤ x.2)) := by
        omega
      intro a ha
      rw [List.take_succ_cons] at ha
      rcases List.mem_cons.mp ha with rfl | ha
      · exact hbx
      · exact ih hm' hc2 a ha

/-! ## NumPy array model -/

/-- Model of a NumPy ndarray of floats as a nesting of scalars.
`val x` is a 0-d scalar; `arr l` adds one axis. NumPy arrays are rectangular;
as NumPy does when converting well-formed nested data, `shape` reads each
axis length off the first element. -/
inductive NpArr (α : Type) where
  | val (x : α)
  | arr (elems : List (NpArr α))

/-- Model of `ndarray.shape`: the list of axis lengths, read off the nesting
structure (first element of each axis, as NumPy infers it). -/
def NpArr.shape : NpArr α → List Nat
  | .val _ => []
  | .arr [] => [0]
  | .arr (x :: xs) => (xs.length + 1) :: x.shape

/-- Model of `ndarray.ndim`. -/
def NpArr.ndim (a : NpArr α) : Nat := a.shape.length

mutual

/-- Pointwise negation of every scalar in an array
(the effect of NumPy's in-place `*= -1` on the written slice). -/
def negArr : NpArr α → NpArr α
  | .val x => .val (-x)
  | .arr l => .arr (negArrList l)

/-- Pointwise negation of a list of arrays (helper of `negArr`). -/
def negArrList : List (NpArr α) → List (NpArr α)
  | [] => []
  | x :: xs => negArr x :: negArrList xs

end

/-- Element `i` along axis 0 (`samples[i, :, :]` as a value). -/
def NpArr.slice0 : NpArr α → Nat → NpArr α
  | .val _, _ => .arr []
  | .arr l, i => l.getD i (.arr [])

/-! ## Score aggregator (`_extract_observations`) -/

/-- Embedding of `_extract_observations` before the final `np.array(...)`
conversion: walk the database in iteration order; skip any record for which
some recipe lookup is missing (`None`); otherwise emit the row of looked-up
values. The database's `dict[str, MoleculeRecord]` is modelled as an
association list in iteration order; a `PropertyRecipe` is modelled by its
`lookup` capability `ρ → Option α` (records and recipes live outside this
module and are consumed only through `lookup`). -/
def extract_observations (database : List (String × ρ))
    (recipes : List (ρ → Option α)) : List (List α) :=
  (database.map Prod.snd).filterMap fun record =>
    if recipes.all fun recipe => (recipe record).isSome then
      some (recipes.map fun recipe => (recipe record).getD 0)
    else
      none

/-- Shape NumPy assigns to `np.array(rows)` for a list of equal-length rows:
`[]` becomes the 1-D empty array of shape `(0,)`; a non-empty list of rows of
length `r` becomes a 2-D array of shape `(len rows, r)`. -/
def npShape : List (List α) → List Nat
  | [] => [0]
  | row :: rest => [rest.length + 1, row.length]

/-! ## Selector state machine -/

/-- Validation failures raised by `add_possibilities`, carrying the counts
that the corresponding Python error messages interpolate. -/
inductive SelErr where
  /-- Python IndexError raised by reading the first axis of an empty
  shape (`samples.shape[0]` on a 0-d array). -/
  | indexErr
  /-- Error stating that the provided number of objectives is unsupported
  without multi-objective capability; carries the axis-0 size. -/
  | objectiveCount (found : Nat)
  /-- Error stating that a 3-dimensional samples array was expected;
  carries the actual dimensionality. -/
  | shapeErr (foundNdim : Nat)
  /-- Error stating that the number of keys and the number of samples
  differ; carries both counts. -/
  | keyCountMismatch (numKeys numSamples : Nat)
  /-- Error stating that the number of recipes and the number of
  maximization selections differ; carries both counts. -/
  | maximizeLen (numObjectives numFlags : Nat)
deriving DecidableEq

/-- Mutable state of a `RankingSelector`: the `gathering` phase flag of the
`Selector` base plus the retained `_options` list. -/
structure SelState (κ α : Type) where
  gathering : Bool
  options : List (SelOpt κ α)
deriving DecidableEq

/-- State of a freshly constructed selector: `__init__` sets
`gathering = True` and calls `start_gathering`, which clears `_options`. -/
def initState : SelState κ α := { gathering := true, options := [] }

/-- Embedding of `RankingSelector.start_gathering`: chains to the base
(which sets the flag) and clears the retained option list. -/
def RankingSelector.start_gathering (_st : SelState κ α) : SelState κ α :=
  { gathering := true, options := [] }

/-- The `maximize` constructor argument of `RankingSelector`: either a single
`bool` or a `Sequence[bool]` with one flag per objective. -/
inductive MaxSpec where
  | single (b : Bool)
  | seq (flags : List Bool)
deriving DecidableEq

/-- Per-objective maximize flags as `_add_possibilities` computes them:
a single `bool` is broadcast by `[maximize] * n_objectives`; a sequence is
used as given. -/
def expandMaximize (m : MaxSpec) (n_objectives : Nat) : List Bool :=
  match m with
  | .single b => List.replicate n_objectives b
  | .seq flags => flags

/-- The negation loop of `_add_possibilities`
(`for i, m in enumerate(maximize): if not m: samples[i, :, :] *= -1`),
as a function of the axis-0 slabs; `i` is the index of the first slab.
Slab `i` is negated exactly when flag `i` is `False`. Indices beyond the
flag list are untouched (the loop only runs over `maximize`); under the
length check guarding this loop the two lists have equal length. -/
def adjustFrom (flags : List Bool) (i : Nat) : List (NpArr α) → List (NpArr α)
  | [] => []
  | slab :: rest =>
    (if flags.getD i true then slab else negArr slab) :: adjustFrom flags (i + 1) rest

/-- The sign-adjusted sample array handed to the scoring policy when at least
one flag is `False` (the copy of `samples` after the negation loop). -/
def adjustObjectives (flags : List Bool) : NpArr α → NpArr α
  | .val x => .val x
  | .arr slabs => .arr (adjustFrom flags 0 slabs)

/-- Configuration of a `RankingSelector`: the constructor arguments plus the
abstract `_assign_score` extension point (a scoring policy mapping the
sign-adjusted 3-D sample array to one scalar per candidate). -/
structure RankCfg (κ α : Type) where
  to_select : Nat
  maximize : MaxSpec
  policy : NpArr α → List α

/-- Embedding of `Selector.add_possibilities` for an arbitrary selector:
`multiobjective` is the class attribute, `start_g` the (virtual)
`start_gathering`, `hook` the abstract `_add_possibilities`. The three
validations run in source order (objective count, then dimensionality, then
key count) before the implicit re-gathering and the delegation to `hook`.
Returns the Python call's outcome together with the state the call leaves
behind (unchanged when a validation raises). -/
def Selector.add_possibilities (multiobjective : Bool)
    (start_g : SelState κ α → SelState κ α)
    (hook : SelState κ α → List κ → NpArr α → Option SelErr × SelState κ α)
    (st : SelState κ α) (keys : List κ) (samples : NpArr α) :
    Option SelErr × SelState κ α :=
  match samples.shape.head? with
  | none => (some .indexErr, st)
  | some s0 =>
    if s0 > 1 ∧ multiobjective = false then
      (some (.objectiveCount s0), st)
    else if samples.ndim ≠ 3 then
      (some (.shapeErr samples.ndim), st)
    else if samples.shape.getD 1 0 ≠ keys.length then
      (some (.keyCountMismatch keys.length (samples.shape.getD 1 0)), st)
    else
      hook (if st.gathering = false then start_g st else st) keys samples

/-- The merge step at the end of `RankingSelector._add_possibilities`:
optionally sign-adjust the samples (the copy-and-negate branch runs only
when some flag is `False`), score them, and retain the `to_select` largest
of the previous options chained with the new `(key, score)` pairs. -/
def RankingSelector.mergeStep (cfg : RankCfg κ α) (st : SelState κ α)
    (keys : List κ) (samples : NpArr α) (maximize : List Bool) :
    Option SelErr × SelState κ α :=
  let samples1 := if maximize.all (· = true) then samples
                  else adjustObjectives maximize samples
  let score := cfg.policy samples1
  (none, { st with options := nlargest cfg.to_select (st.options ++ keys.zip score) })

/-- Embedding of `RankingSelector._add_possibilities`: broadcast a single
`maximize` bool over the objectives, or check a flag sequence's length
against `samples.shape[0]` (raising before any mutation of this method's
own doing), then merge. -/
def RankingSelector.add_impl (cfg : RankCfg κ α) (st : SelState κ α)
    (keys : List κ) (samples : NpArr α) : Option SelErr × SelState κ α :=
  match cfg.maximize with
  | .single b =>
    RankingSelector.mergeStep cfg st keys samples
      (List.replicate (samples.shape.headD 0) b)
  | .seq flags =>
    if flags.length ≠ samples.shape.headD 0 then
      (some (.maximizeLen (samples.shape.headD 0) flags.length), st)
    else
      RankingSelector.mergeStep cfg st keys samples flags

/-- Embedding of `add_possibilities` as invoked on a `RankingSelector`
(class attribute `multiobjective = False`, with the subclass's
`start_gathering` and `_add_possibilities`). -/
def RankingSelector.add_possibilities (cfg : RankCfg κ α) :
    SelState κ α → List κ → NpArr α → Option SelErr × SelState κ α :=
  Selector.add_possibilities false RankingSelector.start_gathering
    (RankingSelector.add_impl cfg)

/-- Embedding of `dispense` on a `RankingSelector`: sets
`gathering = False` and yields
the retained options in stored (descending) order. The pair is
(yielded list, state after the generator has run). -/
def RankingSelector.dispense (st : SelState κ α) :
    List (SelOpt κ α) × SelState κ α :=
  (st.options, { st with gathering := false })

/-- The `(key, score)` options one `add_possibilities` call contributes:
the zip of its keys with the scores the policy assigns to the
sign-adjusted samples. -/
def RankingSelector.batchOptions (cfg : RankCfg κ α) (keys : List κ)
    (samples : NpArr α) : List (SelOpt κ α) :=
  let maximize := expandMaximize cfg.maximize (samples.shape.headD 0)
  let samples1 := if maximize.all (· = true) then samples
                  else adjustObjectives maximize samples
  keys.zip (cfg.policy samples1)

/-- Run a sequence of `add_possibilities` calls, stopping at the first
raised error (as a Python caller would). -/
def runGather (cfg : RankCfg κ α) (st : SelState κ α) :
    List (List κ × NpArr α) → Option SelErr × SelState κ α
  | [] => (none, st)
  | b :: bs =>
    match RankingSelector.add_possibilities cfg st b.1 b.2 with
    | (none, st1) => runGather cfg st1 bs
    | (some e, st1) => (some e, st1)

/-- All options contributed by a sequence of batches. -/
def gatheredOptions (cfg : RankCfg κ α) (bs : List (List κ × NpArr α)) :
    List (SelOpt κ α) :=
  (bs.map fun b => RankingSelector.batchOptions cfg b.1 b.2).flatten

/-! ## Behaviour of a successful `add_possibilities` call -/


/-- Unfolding of the merge step as an explicit pair. -/
theorem RankingSelector.mergeStep_eq (cfg : RankCfg κ α) (st : SelState κ α)
    (keys : List κ) (samples : NpArr α) (maximize : List Bool) :
    RankingSelector.mergeStep cfg st keys samples maximize =
      (none, { st with options := nlargest cfg.to_select (st.options ++
        keys.zip (cfg.policy (if maximize.all (· = true) then samples
          else adjustObjectives maximize samples))) }) := rfl

/-- The batch options are the zip against the policy's scores on the
sign-adjusted array. -/
theorem RankingSelector.batchOptions_eq (cfg : RankCfg κ α) (keys : List κ)
    (samples : NpArr α) :
    RankingSelector.batchOptions cfg keys samples =
      keys.zip (cfg.policy
        (if (expandMaximize cfg.maximize (samples.shape.headD 0)).all (· = true)
         then samples
         else adjustObjectives
           (expandMaximize cfg.maximize (samples.shape.headD 0)) samples)) := rfl

/-- A successful `RankingSelector.add_possibilities` call leaves the selector
gathering, with the retained options equal to the `to_select` largest of the
previously retained options (discarded when the call arrived while
dispensing) chained with the batch's `(key, score)` pairs. -/
theorem RankingSelector.add_success {cfg : RankCfg κ α} {st st' : SelState κ α}
    {keys : List κ} {samples : NpArr α}
    (h : RankingSelector.add_possibilities cfg st keys samples = (none, st')) :
    st'.gathering = true ∧
      st'.options = nlargest cfg.to_select
        ((if st.gathering then st.options else []) ++
          RankingSelector.batchOptions cfg keys samples) := by
  have hg1 : (if st.gathering = false then
      RankingSelector.start_gathering st else st).gathering = true := by
    by_cases hg : st.gathering <;>
      simp [hg, RankingSelector.start_gathering]
  have ho1 : (if st.gathering = false then
      RankingSelector.start_gathering st else st).options =
      (if st.gathering then st.options else []) := by
    by_cases hg : st.gathering <;>
      simp [hg, RankingSelector.start_gathering]
  unfold RankingSelector.add_possibilities Selector.add_possibilities at h
  split at h
  · simp at h
  · split at h
    · simp at h
    · split at h
      · simp at h
      · split at h
        · simp at h
        · set st1 := if st.gathering = false then
            RankingSelector.start_gathering st else st with hst1
          unfold RankingSelector.add_impl at h
          split at h
          · rename_i b heq
            rw [RankingSelector.mergeStep_eq] at h
            have hsteq : _ = st' := congrArg Prod.snd h
            rw [← hsteq]
            refine ⟨hg1, ?_⟩
            dsimp only
            simp only [ho1, RankingSelector.batchOptions_eq, heq, expandMaximize]
          · rename_i flags heq
            split at h
            · simp at h
            · rw [RankingSelector.mergeStep_eq] at h
              have hsteq : _ = st' := congrArg Prod.snd h
              rw [← hsteq]
              refine ⟨hg1, ?_⟩
              dsimp only
              simp only [ho1, RankingSelector.batchOptions_eq, heq, expandMaximize]

/-! ## The bounded top-K invariant -/

/-- Statement that `cur` is a top-`k` selection of the multiset `all`:
the remaining
options `rest` complete `cur` to a permutation of `all`, `cur` holds
`min k |all|` options in descending-score order, and no remaining option
out-scores any retained one. -/
def TopKOf (k : Nat) (all cur : List (SelOpt κ α)) : Prop :=
  ∃ rest, List.Perm (cur ++ rest) all ∧ cur.length = min k all.length ∧
    SortedDesc cur ∧ ∀ p ∈ cur, ∀ q ∈ rest, q.2 ≤ p.2

theorem TopKOf.nil (k : Nat) : TopKOf k ([] : List (SelOpt κ α)) [] :=
  ⟨[], List.Perm.refl _, by simp, List.Pairwise.nil, by simp⟩

/-- Merging a new batch into a top-`k` selection with `nlargest` yields a
top-`k` selection of the enlarged multiset: the single-step correctness of
the `heapq.nlargest`-based merge in `_add_possibilities`. -/
theorem TopKOf.step {k : Nat} {all cur batch : List (SelOpt κ α)}
    (h : TopKOf k all cur) :
    TopKOf k (all ++ batch) (nlargest k (cur ++ batch)) := by
  obtain ⟨rest, hperm, hlen, hsort, hsc⟩ := h
  have hmp : List.Perm (sortDesc (cur ++ batch)) (cur ++ batch) :=
    sortDesc_perm _
  have hms : SortedDesc (sortDesc (cur ++ batch)) := sortDesc_sorted _
  refine ⟨(sortDesc (cur ++ batch)).drop k ++ rest, ?_, ?_, ?_, ?_⟩
  · have e1 : nlargest k (cur ++ batch) ++
        ((sortDesc (cur ++ batch)).drop k ++ rest) =
        sortDesc (cur ++ batch) ++ rest := by
      rw [← List.append_assoc]
      unfold nlargest
      rw [List.take_append_drop]
    rw [e1]
    have p1 : List.Perm (sortDesc (cur ++ batch) ++ rest)
        ((cur ++ batch) ++ rest) := hmp.append_right rest
    have p2 : List.Perm ((cur ++ batch) ++ rest) ((cur ++ rest) ++ batch) := by
      rw [List.append_assoc, List.append_assoc]
      exact List.perm_append_comm.append_left cur
    have p3 : List.Perm ((cur ++ rest) ++ batch) (all ++ batch) :=
      hperm.append_right batch
    exact (p1.trans p2).trans p3
  · have hmlen : (sortDesc (cur ++ batch)).length = cur.length + batch.length := by
      rw [hmp.length_eq, List.length_append]
    have halen : all.length = cur.length + rest.length := by
      rw [← hperm.length_eq, List.length_append]
    unfold nlargest
    rw [List.length_take, hmlen, List.length_append]
    omega
  · exact List.Pairwise.sublist (List.take_sublist _ _) hms
  · intro p hp q hq
    rcases List.mem_append.mp hq with hq | hq
    · have hsplit := hms
      rw [← List.take_append_drop k (sortDesc (cur ++ batch))] at hsplit
      exact (List.pairwise_append.mp hsplit).2.2 p hp q hq
    · -- a previously discarded option; `rest` non-empty forces a full window
      have hrpos : 0 < rest.length := List.length_pos.mpr (List.ne_nil_of_mem hq)
      have halen : all.length = cur.length + rest.length := by
        rw [← hperm.length_eq, List.length_append]
      have hfull : cur.length = k := by omega
      have hsub : cur.Subperm (sortDesc (cur ++ batch)) :=
        (List.sublist_append_left cur batch).subperm.trans hmp.symm.subperm
      have hcount : cur.length ≤
          (sortDesc (cur ++ batch)).countP (fun x => decide (q.2 ≤ x.2)) := by
        have hcur : cur.countP (fun x => decide (q.2 ≤ x.2)) = cur.length :=
          List.countP_eq_length.mpr fun x hx => decide_eq_true (hsc x hx q hq)
        calc cur.length = cur.countP (fun x => decide (q.2 ≤ x.2)) := hcur.symm
          _ ≤ _ := hsub.countP_le _
      exact take_ge_of_count_ge hms (hfull ▸ hcount) p hp

/-- Running a sequence of successful `add_possibilities` calls from a
gathering state whose options are a top-K selection of the options
seen so far preserves that invariant over all contributed options. -/
theorem runGather_topK (cfg : RankCfg κ α) (bs : List (List κ × NpArr α)) :
    ∀ (st : SelState κ α) (seen : List (SelOpt κ α)) (st' : SelState κ α),
      st.gathering = true → TopKOf cfg.to_select seen st.options →
      runGather cfg st bs = (none, st') →
      st'.gathering = true ∧
        TopKOf cfg.to_select (seen ++ gatheredOptions cfg bs) st'.options := by
  induction bs with
  | nil =>
    intro st seen st' hg hinv hrun
    unfold runGather at hrun
    have hst : st = st' := congrArg Prod.snd hrun
    subst hst
    refine ⟨hg, ?_⟩
    simpa [gatheredOptions] using hinv
  | cons b bs ih =>
    intro st seen st' hg hinv hrun
    unfold runGather at hrun
    cases hadd : RankingSelector.add_possibilities cfg st b.1 b.2 with
    | mk e st1 =>
      rw [hadd] at hrun
      cases e with
      | some e => simp at hrun
      | none =>
        obtain ⟨hg1, hopt1⟩ := RankingSelector.add_success hadd
        rw [hg] at hopt1
        simp only [if_true] at hopt1
        have hstep : TopKOf cfg.to_select
            (seen ++ RankingSelector.batchOptions cfg b.1 b.2) st1.options := by
          rw [hopt1]
          exact TopKOf.step hinv
        have := ih st1 (seen ++ RankingSelector.batchOptions cfg b.1 b.2) st'
          hg1 hstep hrun
        have harr : seen ++ RankingSelector.batchOptions cfg b.1 b.2 ++
            gatheredOptions cfg bs =
            seen ++ gatheredOptions cfg (b :: bs) := by
          simp [gatheredOptions]
        rw [harr] at this
        exact this

/-! ## Concrete fixtures for witnesses and counterexamples -/

/-- A simple concrete scoring policy — the per-candidate sum over the
ensemble axis of objective 0 (a greedy aggregate, proportional to the
ensemble mean) — used to instantiate the abstract `_assign_score` extension
point on concrete runs (the policy contract: 3-D sample array in, one
scalar per candidate out). -/
def sumScore (samples : NpArr α) : List α :=
  match samples.slice0 0 with
  | .arr cands => cands.map fun c =>
      match c with
      | .arr mems => (mems.map fun m => match m with | .val x => x | .arr _ => 0).sum
      | .val x => x
  | .val x => [x]

/-- Samples of shape 1×3×1 holding values 5, 1, 9 (the spec's worked
example for the maximize/minimize convention). -/
def cubeABC : NpArr ℤ := .arr [.arr [.arr [.val 5], .arr [.val 1], .arr [.val 9]]]

/-- Samples of shape 1×1×1 holding the value 10. -/
def cubeA10 : NpArr ℤ := .arr [.arr [.arr [.val 10]]]

/-- Samples of shape 1×2×1 holding values 20 and 5. -/
def cubeBC : NpArr ℤ := .arr [.arr [.arr [.val 20], .arr [.val 5]]]

/-- Samples of shape 1×1×1 holding the value 2. -/
def cube1 : NpArr ℤ := .arr [.arr [.arr [.val 2]]]

/-- A 2-D array of shape 2×1. -/
def twoD : NpArr ℤ := .arr [.arr [.val 1], .arr [.val 2]]

/-- A 2-D array of shape 1×2. -/
def oneTwo2D : NpArr ℤ := .arr [.arr [.val 1, .val 2]]

/-- A 4-D array of shape 1×2×1×1. -/
def fourD : NpArr ℤ := .arr [.arr [.arr [.arr [.val 1]], .arr [.arr [.val 2]]]]

/-- Ranking selector with `to_select = 2`, `maximize = True`. -/
def cfgMax : RankCfg String ℤ :=
  { to_select := 2, maximize := .single true, policy := sumScore }

/-- Ranking selector with `to_select = 2`, `maximize = False`. -/
def cfgMin : RankCfg String ℤ :=
  { to_select := 2, maximize := .single false, policy := sumScore }

/-- Ranking selector whose `maximize` is the two-flag sequence
`[True, True]`. -/
def cfgSeq2 : RankCfg String ℤ :=
  { to_select := 2, maximize := .seq [true, true], policy := sumScore }

/-! ## C1 -/

/-- C1: for a `RankingSelector` with target size `to_select`, after any
sequence of successful `add_possibilities` calls within one gathering round
contributing `N` (key, score) options in total, `dispense()` yields exactly
`min(N, to_select)` pairs, in descending-score order, and every yielded
score is ≥ every non-yielded option's score (the non-yielded options being
the rest of the contributed multiset). -/
theorem C1_dispense_topk (cfg : RankCfg κ α) (bs : List (List κ × NpArr α))
    (st : SelState κ α) (h : runGather cfg initState bs = (none, st)) :
    ∃ rest,
      List.Perm ((RankingSelector.dispense st).1 ++ rest)
        (gatheredOptions cfg bs) ∧
      (RankingSelector.dispense st).1.length =
        min (gatheredOptions cfg bs).length cfg.to_select ∧
      SortedDesc (RankingSelector.dispense st).1 ∧
      ∀ p ∈ (RankingSelector.dispense st).1, ∀ q ∈ rest, q.2 ≤ p.2 := by
  have h0 := runGather_topK cfg bs initState [] st rfl (TopKOf.nil _) h
  obtain ⟨-, hinv⟩ := h0
  rw [List.nil_append] at hinv
  obtain ⟨rest, hperm, hlen, hsort, hsc⟩ := hinv
  refine ⟨rest, ?_, ?_, ?_, ?_⟩ <;> simp only [RankingSelector.dispense]
  · exact hperm
  · rw [hlen, Nat.min_comm]
  · exact hsort
  · exact hsc

/-- Witness for C1: gathering `{"a": 10}` then `{"b": 20, "c": 5}` with
`to_select = 2` and then dispensing (the spec's merge example; the selector
retains `[("b", 20), ("a", 10)]`). -/
theorem C1_dispense_topk_witness :
    ∃ rest,
      List.Perm ((RankingSelector.dispense
          ⟨true, [("b", (20 : ℤ)), ("a", 10)]⟩).1 ++ rest)
        (gatheredOptions cfgMax [(["a"], cubeA10), (["b", "c"], cubeBC)]) ∧
      (RankingSelector.dispense
          (⟨true, [("b", (20 : ℤ)), ("a", 10)]⟩ : SelState String ℤ)).1.length =
        min (gatheredOptions cfgMax
          [(["a"], cubeA10), (["b", "c"], cubeBC)]).length cfgMax.to_select ∧
      SortedDesc (RankingSelector.dispense
          (⟨true, [("b", (20 : ℤ)), ("a", 10)]⟩ : SelState String ℤ)).1 ∧
      ∀ p ∈ (RankingSelector.dispense
          (⟨true, [("b", (20 : ℤ)), ("a", 10)]⟩ : SelState String ℤ)).1,
        ∀ q ∈ rest, q.2 ≤ p.2 :=
  C1_dispense_topk cfgMax [(["a"], cubeA10), (["b", "c"], cubeBC)]
    ⟨true, [("b", (20 : ℤ)), ("a", 10)]⟩ (by rfl)

/-! ## C2 -/

/-- A one-molecule database (iteration order `["mol1"]`); records modelled
by `Nat` since only `lookup` observes them. -/
def dbOne : List (String × Nat) := [("mol1", 0)]

/-- Two recipes of which the first finds no value on any record, so no
molecule has values for all recipes. -/
def recipesNone : List (Nat → Option ℤ) := [fun _ => none, fun _ => some 1]

/-- C2, evaluated at the failing input: with a database in which no molecule
has a non-missing lookup for all `R = 2` recipes, `_extract_observations`
builds the empty row list, and `np.array([])` is the 1-D empty array of
shape `(0,)` — not the 2-D shape `(0, 2)` the docstring
(num molecules by num recipes) and the spec promise. No error is
raised. -/
theorem C2_empty_aggregation_shape :
    extract_observations dbOne recipesNone = [] ∧
    npShape (extract_observations dbOne recipesNone) = [0] ∧
    npShape (extract_observations dbOne recipesNone) ≠ [0, 2] :=
  ⟨rfl, rfl, by decide⟩

/-! ## C3 -/

/-- C3 (amended): provided the objective-count gate passes (axis-0 size at
most 1, or the selector declares multi-objective support — the source checks
the objective count before the dimensionality), `add_possibilities` with a
samples array that is not exactly 3-dimensional fails with the shape error
reporting the actual dimensionality, for every selector, state and key
list. -/
theorem C3_shape_error (multiobjective : Bool)
    (start_g : SelState κ α → SelState κ α)
    (hook : SelState κ α → List κ → NpArr α → Option SelErr × SelState κ α)
    (st : SelState κ α) (keys : List κ) (samples : NpArr α)
    (s0 : Nat) (shp : List Nat)
    (hshape : samples.shape = s0 :: shp)
    (hgate : s0 ≤ 1 ∨ multiobjective = true)
    (hndim : samples.ndim ≠ 3) :
    Selector.add_possibilities multiobjective start_g hook st keys samples =
      (some (.shapeErr samples.ndim), st) := by
  have hcond : ¬(s0 > 1 ∧ multiobjective = false) := by
    rintro ⟨h1, h2⟩
    rcases hgate with h | h
    · omega
    · rw [h] at h2; simp at h2
  unfold Selector.add_possibilities
  simp only [hshape, List.head?_cons]
  rw [if_neg hcond, if_pos hndim]

/-- Witness for C3 (amended): a 2-D array of shape 1×2 on a single-objective
`RankingSelector` fails with the shape error reporting dimensionality 2. -/
theorem C3_shape_error_witness :
    RankingSelector.add_possibilities cfgMax initState ["a"] oneTwo2D =
      (some (.shapeErr 2), initState) :=
  C3_shape_error false RankingSelector.start_gathering
    (RankingSelector.add_impl cfgMax) initState ["a"] oneTwo2D 1 [2] rfl
    (Or.inl (by decide)) (by decide)

/-- C3 counterexample: a 2-D samples array whose axis-0 size is 2, on a
selector without multi-objective support, fails with the objective-count
error — not with the shape error reporting the dimensionality 2 that the
claim requires "regardless of the selector's capabilities". -/
theorem C3_counterexample :
    (RankingSelector.add_possibilities cfgMax initState ["a"] twoD).1 =
      some (.objectiveCount 2) ∧
    (RankingSelector.add_possibilities cfgMax initState ["a"] twoD).1 ≠
      some (.shapeErr 2) := by
  exact ⟨by decide, by decide⟩

/-! ## C6 -/

/-- C6: for every selector that does not declare multi-objective support
(class attribute `multiobjective = False`), `add_possibilities` with a 3-D
samples array whose axis-0 size exceeds 1 fails with the objective-count
error carrying that axis-0 size, whatever the hooks, state and keys. -/
theorem C6_objective_gate
    (start_g : SelState κ α → SelState κ α)
    (hook : SelState κ α → List κ → NpArr α → Option SelErr × SelState κ α)
    (st : SelState κ α) (keys : List κ) (samples : NpArr α)
    (s0 s1 s2 : Nat)
    (hshape : samples.shape = [s0, s1, s2]) (hs0 : s0 > 1) :
    Selector.add_possibilities false start_g hook st keys samples =
      (some (.objectiveCount s0), st) := by
  unfold Selector.add_possibilities
  simp only [hshape, List.head?_cons]
  rw [if_pos ⟨hs0, trivial⟩]

/-- A 3-D array of shape 2×1×1 (two objectives, one candidate, one
ensemble member). -/
def cube2obj : NpArr ℤ := .arr [.arr [.arr [.val 1]], .arr [.arr [.val 2]]]

/-- Witness for C6: a single-objective `RankingSelector` rejects a 3-D
batch with axis-0 size 2. -/
theorem C6_objective_gate_witness :
    RankingSelector.add_possibilities cfgMax initState ["a"] cube2obj =
      (some (.objectiveCount 2), initState) :=
  C6_objective_gate RankingSelector.start_gathering
    (RankingSelector.add_impl cfgMax) initState ["a"] cube2obj 2 1 1 rfl
    (by decide)

/-! ## C7 -/

/-- C7 (amended): for a 3-D samples array that passes the objective-count
gate, an axis-1 size different from `len(keys)` fails with the key-count
mismatch error citing both counts. (As stated over arbitrary arrays the
claim fails: the dimensionality check precedes the key-count check.) -/
theorem C7_keycount_error (multiobjective : Bool)
    (start_g : SelState κ α → SelState κ α)
    (hook : SelState κ α → List κ → NpArr α → Option SelErr × SelState κ α)
    (st : SelState κ α) (keys : List κ) (samples : NpArr α)
    (s0 s1 s2 : Nat)
    (hshape : samples.shape = [s0, s1, s2])
    (hgate : s0 ≤ 1 ∨ multiobjective = true)
    (hkeys : s1 ≠ keys.length) :
    Selector.add_possibilities multiobjective start_g hook st keys samples =
      (some (.keyCountMismatch keys.length s1), st) := by
  have hcond : ¬(s0 > 1 ∧ multiobjective = false) := by
    rintro ⟨h1, h2⟩
    rcases hgate with h | h
    · omega
    · rw [h] at h2; simp at h2
  have hndim : ¬(samples.ndim ≠ 3) := by
    unfold NpArr.ndim
    rw [hshape]
    simp
  unfold Selector.add_possibilities
  simp only [hshape, List.head?_cons, List.getD_cons_succ, List.getD_cons_zero]
  rw [if_neg hcond, if_neg hndim, if_pos hkeys]

/-- Witness for C7 (amended): a 3-D batch of shape 1×2×1 with a single key
fails with the key-count mismatch citing 1 key and 2 samples. -/
theorem C7_keycount_error_witness :
    RankingSelector.add_possibilities cfgMax initState ["a"] cubeBC =
      (some (.keyCountMismatch 1 2), initState) :=
  C7_keycount_error false RankingSelector.start_gathering
    (RankingSelector.add_impl cfgMax) initState ["a"] cubeBC 1 2 1 rfl
    (Or.inl (by decide)) (by decide)

/-- C7 counterexample: a 4-D samples array whose axis-1 size 2 differs from
the single key fails with the shape error, not the key-count mismatch the
claim requires for "every samples array whose axis-1 size differs". -/
theorem C7_counterexample :
    (RankingSelector.add_possibilities cfgMax initState ["a"] fourD).1 =
      some (.shapeErr 4) ∧
    (RankingSelector.add_possibilities cfgMax initState ["a"] fourD).1 ≠
      some (.keyCountMismatch 1 2) := by
  exact ⟨by decide, by decide⟩

/-! ## C4 -/

/-- A selector state as left behind by a consumed `dispense`:
not gathering, with retained options `[("a", 5)]`. -/
def st4 : SelState String ℤ := { gathering := false, options := [("a", 5)] }

/-- C4 counterexample: on a dispensing `RankingSelector` whose `maximize`
is the flag sequence `[True, True]`, a single-objective batch raises the
maximize-flag-length error — but only after the implicit `start_gathering`
has already flipped the gathering flag and cleared the retained options, so
the failing call does not leave the state unchanged. -/
theorem C4_counterexample :
    RankingSelector.add_possibilities cfgSeq2 st4 ["z"] cube1 =
      (some (.maximizeLen 1 2), { gathering := true, options := [] }) ∧
    ({ gathering := true, options := [] } : SelState String ℤ) ≠ st4 := by
  exact ⟨by decide, by decide⟩

/-- C4 (amended): every failing `RankingSelector.add_possibilities` call
leaves the state unchanged — except the maximize-flag-length failure, which
is raised inside `_add_possibilities` after the implicit re-gathering, so
when it strikes a dispensing selector the state left behind is the
freshly cleared gathering state. -/
theorem C4_error_state (cfg : RankCfg κ α) (st : SelState κ α) (keys : List κ)
    (samples : NpArr α) (e : SelErr) (st' : SelState κ α)
    (h : RankingSelector.add_possibilities cfg st keys samples = (some e, st')) :
    st' = (match e with
      | .maximizeLen _ _ =>
        if st.gathering = true then st else { gathering := true, options := [] }
      | _ => st) := by
  unfold RankingSelector.add_possibilities Selector.add_possibilities at h
  split at h
  · obtain ⟨he, hst⟩ := Prod.mk.injEq .. |>.mp h
    obtain rfl := Option.some.injEq .. |>.mp he
    exact hst.symm
  · split at h
    · obtain ⟨he, hst⟩ := Prod.mk.injEq .. |>.mp h
      obtain rfl := Option.some.injEq .. |>.mp he
      exact hst.symm
    · split at h
      · obtain ⟨he, hst⟩ := Prod.mk.injEq .. |>.mp h
        obtain rfl := Option.some.injEq .. |>.mp he
        exact hst.symm
      · split at h
        · obtain ⟨he, hst⟩ := Prod.mk.injEq .. |>.mp h
          obtain rfl := Option.some.injEq .. |>.mp he
          exact hst.symm
        · unfold RankingSelector.add_impl at h
          split at h
          · rw [RankingSelector.mergeStep_eq] at h
            exact absurd (congrArg Prod.fst h) (by simp)
          · split at h
            · obtain ⟨he, hst⟩ := Prod.mk.injEq .. |>.mp h
              obtain rfl := Option.some.injEq .. |>.mp he
              subst hst
              by_cases hg : st.gathering = true
              · simp [hg]
              · simp [hg, RankingSelector.start_gathering]
            · rw [RankingSelector.mergeStep_eq] at h
              exact absurd (congrArg Prod.fst h) (by simp)

/-- Witness for C4 (amended): the maximize-length failure on the dispensing
state `st4` leaves behind the cleared gathering state. -/
theorem C4_error_state_witness :
    ({ gathering := true, options := [] } : SelState String ℤ) =
      (if st4.gathering = true then st4
       else { gathering := true, options := [] }) :=
  C4_error_state cfgSeq2 st4 ["z"] cube1 (.maximizeLen 1 2)
    { gathering := true, options := [] } (by decide)

/-! ## C5 -/

/-- A successful `add_possibilities` on a dispensing selector produces
exactly what the same call on a freshly cleared selector produces: the
implicit `start_gathering` discards all previous state. -/
theorem RankingSelector.add_fresh {cfg : RankCfg κ α} {st r : SelState κ α}
    {keys : List κ} {samples : NpArr α} (hg : st.gathering = false)
    (h : RankingSelector.add_possibilities cfg st keys samples = (none, r)) :
    RankingSelector.add_possibilities cfg { gathering := true, options := [] }
      keys samples = (none, r) := by
  unfold RankingSelector.add_possibilities Selector.add_possibilities at h ⊢
  cases hsh : samples.shape.head? with
  | none => rw [hsh] at h; exact absurd h (by simp)
  | some s0 =>
    rw [hsh] at h
    simp only at h ⊢
    by_cases h1 : s0 > 1
    · rw [if_pos ⟨h1, trivial⟩] at h; exact absurd h (by simp)
    · have h1n : ¬(s0 > 1 ∧ True) := fun hc => h1 hc.1
      rw [if_neg h1n] at h; rw [if_neg h1n]
      by_cases h2 : samples.ndim ≠ 3
      · rw [if_pos h2] at h; exact absurd h (by simp)
      · rw [if_neg h2] at h; rw [if_neg h2]
        by_cases h3 : samples.shape.getD 1 0 ≠ keys.length
        · rw [if_pos h3] at h; exact absurd h (by simp)
        · rw [if_neg h3] at h; rw [if_neg h3]
          have e1 : (if st.gathering = false then
              RankingSelector.start_gathering st else st) =
              ({ gathering := true, options := [] } : SelState κ α) := by
            rw [hg]
            simp [RankingSelector.start_gathering]
          rw [e1] at h
          have e2 : (if (true = false) then
              RankingSelector.start_gathering
                ({ gathering := true, options := [] } : SelState κ α)
              else { gathering := true, options := [] }) =
              ({ gathering := true, options := [] } : SelState κ α) := by
            simp
          rw [e2]
          exact h

/-- C5: after a consumed `dispense`, a successful `add_possibilities` with a
fresh batch produces the same outcome as on a freshly cleared selector
(all previously retained options are discarded), and the subsequent
`dispense` yields only (key, score) pairs contributed by the new batch. -/
theorem C5_round_isolation (cfg : RankCfg κ α) (st st' : SelState κ α)
    (keys : List κ) (samples : NpArr α) (hg : st.gathering = false)
    (h : RankingSelector.add_possibilities cfg st keys samples = (none, st')) :
    RankingSelector.add_possibilities cfg { gathering := true, options := [] }
        keys samples = (none, st') ∧
    ∀ p ∈ (RankingSelector.dispense st').1,
      p ∈ RankingSelector.batchOptions cfg keys samples := by
  refine ⟨RankingSelector.add_fresh hg h, ?_⟩
  obtain ⟨-, hopt⟩ := RankingSelector.add_success h
  have hopt2 : st'.options =
      nlargest cfg.to_select (RankingSelector.batchOptions cfg keys samples) := by
    rw [hopt, hg]
    simp
  intro p hp
  simp only [RankingSelector.dispense] at hp
  rw [hopt2] at hp
  unfold nlargest at hp
  have hmem := List.take_subset _ _ hp
  exact (sortDesc_perm _).mem_iff.mp hmem

/-- The state reached from `st4` by a successful fresh batch
`{"b": 20, "c": 5}`. -/
def stBC : SelState String ℤ :=
  { gathering := true, options := [("b", 20), ("c", 5)] }

/-- Witness for C5: on the dispensing state `st4` (which retains
`("a", 5)`), adding the fresh batch `{"b": 20, "c": 5}` and dispensing
again yields only `b` and `c` options. -/
theorem C5_round_isolation_witness :
    RankingSelector.add_possibilities cfgMax
        { gathering := true, options := [] } ["b", "c"] cubeBC =
      (none, stBC) ∧
    ∀ p ∈ (RankingSelector.dispense stBC).1,
      p ∈ RankingSelector.batchOptions cfgMax ["b", "c"] cubeBC :=
  C5_round_isolation cfgMax st4 stBC ["b", "c"] cubeBC (by decide) (by decide)

/-! ## C8 -/

/-- Element-wise description of the negation loop: entry `j` of the
adjusted slab list (the loop having started at flag index `i`) is the
original slab when flag `i + j` is `True` and its pointwise negation when
the flag is `False`. -/
theorem adjustFrom_getD (flags : List Bool) :
    ∀ (slabs : List (NpArr α)) (i j : Nat), j < slabs.length →
      (adjustFrom flags i slabs).getD j (.arr []) =
        (if flags.getD (i + j) true then slabs.getD j (.arr [])
         else negArr (slabs.getD j (.arr []))) := by
  intro slabs
  induction slabs with
  | nil => intro i j hj; simp at hj
  | cons s rest ih =>
    intro i j hj
    cases j with
    | zero => simp [adjustFrom]
    | succ j2 =>
      have hrec := ih (i + 1) j2 (by simpa using hj)
      simp only [adjustFrom, List.getD_cons_succ]
      rw [hrec]
      have harith : i + 1 + j2 = i + (j2 + 1) := by omega
      rw [harith]

/-- C8: in `RankingSelector._add_possibilities`, objective slab `i` of the
array passed to the scoring policy is the negation of the raw slab exactly
when flag `i` is `False`, and the raw slab unchanged when it is `True`; a
single `maximize` bool is broadcast to every objective's flag; and
consequently, on the spec's example (single objective, `maximize = False`,
values 5, 1, 9 for keys a, b, c, `to_select = 2`), dispensing yields
`[("b", -1), ("a", -5)]` — the candidates with the lowest raw values rank
best. -/
theorem C8_sign_flip :
    (∀ (flags : List Bool) (slabs : List (NpArr α)) (i : Nat),
      i < slabs.length →
      (adjustObjectives flags (NpArr.arr slabs)).slice0 i =
        (if flags.getD i true then (NpArr.arr slabs).slice0 i
         else negArr ((NpArr.arr slabs).slice0 i))) ∧
    (∀ (b : Bool) (n i : Nat), i < n →
      (expandMaximize (.single b) n).getD i true = b) ∧
    (RankingSelector.dispense
        (RankingSelector.add_possibilities cfgMin initState
          ["a", "b", "c"] cubeABC).2).1 = [("b", -1), ("a", -5)] := by
  refine ⟨?_, ?_, ?_⟩
  · intro flags slabs i hi
    simp only [adjustObjectives, NpArr.slice0]
    have hfrom := adjustFrom_getD flags slabs 0 i hi
    rw [Nat.zero_add] at hfrom
    exact hfrom
  · intro b n i hi
    simp only [expandMaximize]
    rw [List.getD_eq_getElem?_getD, List.getElem?_replicate]
    simp [hi]
  · decide

/-- Witness for C8: with the single flag `[False]`, slab 0 of the adjusted
array is the pointwise negation of the raw slab. -/
theorem C8_sign_flip_witness :
    (adjustObjectives [false]
        (NpArr.arr [NpArr.arr [NpArr.val (5 : ℤ)]])).slice0 0 =
      (if ([false] : List Bool).getD 0 true then
        (NpArr.arr [NpArr.arr [NpArr.val (5 : ℤ)]]).slice0 0
       else negArr ((NpArr.arr [NpArr.arr [NpArr.val (5 : ℤ)]]).slice0 0)) :=
  C8_sign_flip.1 [false] [NpArr.arr [NpArr.val (5 : ℤ)]] 0 (by decide)

/-! ## C9 -/

/-- The public operations of the selector protocol. -/
inductive SelectorOp (κ α : Type) where
  | start_gathering
  | add_possibilities (keys : List κ) (samples : NpArr α)
  | dispense

/-- One public operation applied to a `RankingSelector` state
(`dispense` taken as consumed: its generator body runs, flipping the flag
and yielding the stored options). -/
def stepOp (cfg : RankCfg κ α) (st : SelState κ α) :
    SelectorOp κ α → Option SelErr × SelState κ α
  | .start_gathering => (none, RankingSelector.start_gathering st)
  | .add_possibilities keys samples =>
      RankingSelector.add_possibilities cfg st keys samples
  | .dispense => (none, (RankingSelector.dispense st).2)

/-- Run a sequence of protocol operations, stopping at the first raised
error. -/
def runTrace (cfg : RankCfg κ α) (st : SelState κ α) :
    List (SelectorOp κ α) → Option SelErr × SelState κ α
  | [] => (none, st)
  | op :: ops =>
    match stepOp cfg st op with
    | (none, st1) => runTrace cfg st1 ops
    | (some e, st1) => (some e, st1)

/-- After any single successful operation the gathering flag is `false`
exactly when that operation was `dispense`. -/
theorem stepOp_gathering {cfg : RankCfg κ α} {st st1 : SelState κ α}
    {op : SelectorOp κ α} (h : stepOp cfg st op = (none, st1)) :
    st1.gathering = (match op with
      | .dispense => false
      | _ => true) := by
  cases op with
  | start_gathering =>
    have h2 : RankingSelector.start_gathering st = st1 := congrArg Prod.snd h
    subst h2
    rfl
  | add_possibilities keys samples =>
    exact (RankingSelector.add_success h).1
  | dispense =>
    have h2 : (RankingSelector.dispense st).2 = st1 := congrArg Prod.snd h
    subst h2
    rfl

/-- The gathering flag after a successful trace is decided by the trace's
last operation (or the starting state for the empty trace). -/
theorem runTrace_gathering (cfg : RankCfg κ α) :
    ∀ (ops : List (SelectorOp κ α)) (st st' : SelState κ α),
      runTrace cfg st ops = (none, st') →
      st'.gathering = (match ops.getLast? with
        | some .dispense => false
        | some _ => true
        | none => st.gathering) := by
  intro ops
  induction ops with
  | nil =>
    intro st st' h
    unfold runTrace at h
    have h2 : st = st' := congrArg Prod.snd h
    subst h2
    rfl
  | cons op ops ih =>
    intro st st' h
    unfold runTrace at h
    cases hstep : stepOp cfg st op with
    | mk e st1 =>
      rw [hstep] at h
      cases e with
      | some e => simp at h
      | none =>
        have hg1 := stepOp_gathering hstep
        cases ops with
        | nil =>
          unfold runTrace at h
          have h2 : st1 = st' := congrArg Prod.snd h
          subst h2
          cases op with
          | start_gathering => simpa using hg1
          | add_possibilities keys samples => simpa using hg1
          | dispense => simpa using hg1
        | cons op2 ops2 =>
          have hlast : (op :: op2 :: ops2).getLast? = (op2 :: ops2).getLast? :=
            List.getLast?_cons_cons ..
          rw [hlast]
          have h2 := ih st1 st' h
          obtain ⟨l, hl⟩ : ∃ l, (op2 :: ops2).getLast? = some l := by
            cases hx : (op2 :: ops2).getLast? with
            | none => exact absurd hx (by simp)
            | some l => exact ⟨l, rfl⟩
          rw [hl] at h2 ⊢
          cases l <;> exact h2

/-- C9: over every successful operation trace from construction, the
gathering flag is `true` from construction (and after every
`start_gathering` or `add_possibilities`, the latter implicitly restarting
gathering) and `false` exactly when the most recent operation was a
`dispense`; and from any reached dispensing state, a successful
`add_possibilities` implicitly restarts gathering and discards all
previously gathered options, retaining only the new batch's. -/
theorem C9_gathering_flag (cfg : RankCfg κ α) (ops : List (SelectorOp κ α))
    (st' : SelState κ α) (h : runTrace cfg initState ops = (none, st')) :
    (st'.gathering = (match ops.getLast? with
      | some .dispense => false
      | _ => true)) ∧
    (∀ (keys : List κ) (samples : NpArr α) (st2 : SelState κ α),
      st'.gathering = false →
      RankingSelector.add_possibilities cfg st' keys samples = (none, st2) →
      st2.options = nlargest cfg.to_select
        (RankingSelector.batchOptions cfg keys samples)) := by
  constructor
  · have h2 := runTrace_gathering cfg ops initState st' h
    cases hx : ops.getLast? with
    | none =>
      rw [hx] at h2
      exact h2
    | some l =>
      rw [hx] at h2
      cases l <;> exact h2
  · intro keys samples st2 hg hadd
    obtain ⟨-, hopt⟩ := RankingSelector.add_success hadd
    rw [hopt, hg]
    simp

/-- Witness for C9: after adding one batch and dispensing, the flag is
`false`, matching the trace's last operation being `dispense`. -/
theorem C9_gathering_flag_witness :
    ({ gathering := false, options := [("a", 2)] } :
        SelState String ℤ).gathering =
      (match ([SelectorOp.add_possibilities ["a"] cube1,
               SelectorOp.dispense] : List (SelectorOp String ℤ)).getLast? with
       | some .dispense => false
       | _ => true) :=
  (C9_gathering_flag cfgMax
    [SelectorOp.add_possibilities ["a"] cube1, SelectorOp.dispense]
    { gathering := false, options := [("a", 2)] } (by decide)).1

/-! ## C10 -/

/-- An allocation heap of ndarrays; a Python array object is a reference
(index) into it. -/
def heapRead (h : List (NpArr α)) (r : Nat) : NpArr α := h.getD r (.arr [])

/-- Store array value `a` at reference `r`. -/
def heapWrite (h : List (NpArr α)) (r : Nat) (a : NpArr α) : List (NpArr α) :=
  h.set r a

/-- Model of `samples[i, :, :] *= -1` as a value transformation: slab `i`
replaced by its pointwise negation. -/
def negSlice0 (a : NpArr α) (i : Nat) : NpArr α :=
  match a with
  | .val x => .val x
  | .arr l => .arr (l.set i (negArr (l.getD i (.arr []))))

/-- Heap-level rendering of the merge step of
`RankingSelector._add_possibilities`: when some flag is `False`,
`samples = samples.copy()` allocates a fresh array at the end of the heap
and rebinds the local name to it, and the loop
`for i, m in enumerate(maximize): if not m: samples[i, :, :] *= -1`
writes through that fresh reference only. The scoring policy then reads
whichever reference the local name holds. -/
def RankingSelector.mergeStepHeap (cfg : RankCfg κ α) (st : SelState κ α)
    (keys : List κ) (h : List (NpArr α)) (sref : Nat) (maximize : List Bool) :
    Option SelErr × SelState κ α × List (NpArr α) :=
  let hr :=
    if maximize.all (· = true) then (h, sref)
    else
      ((maximize.enum.foldl (fun hh im =>
          if im.2 then hh
          else heapWrite hh h.length (negSlice0 (heapRead hh h.length) im.1))
        (h ++ [heapRead h sref])), h.length)
  (none,
    { st with
      options := nlargest cfg.to_select
        (st.options ++ keys.zip (cfg.policy (heapRead hr.1 hr.2))) },
    hr.1)

/-- Heap-level rendering of `RankingSelector.add_possibilities`
(class attribute `multiobjective = False`, so the objective-count check
reduces to `samples.shape[0] > 1`): the samples argument is passed as
reference `sref` into heap `h`; the call returns the outcome, the state
left behind and the final heap. Base validation only reads. -/
def RankingSelector.add_possibilities_heap (cfg : RankCfg κ α)
    (st : SelState κ α) (keys : List κ) (h : List (NpArr α)) (sref : Nat) :
    Option SelErr × SelState κ α × List (NpArr α) :=
  match (heapRead h sref).shape.head? with
  | none => (some .indexErr, st, h)
  | some s0 =>
    if s0 > 1 then (some (.objectiveCount s0), st, h)
    else if (heapRead h sref).ndim ≠ 3 then
      (some (.shapeErr (heapRead h sref).ndim), st, h)
    else if (heapRead h sref).shape.getD 1 0 ≠ keys.length then
      (some (.keyCountMismatch keys.length ((heapRead h sref).shape.getD 1 0)),
        st, h)
    else
      match cfg.maximize with
      | .single b =>
        RankingSelector.mergeStepHeap cfg
          (if st.gathering = false then RankingSelector.start_gathering st
           else st) keys h sref
          (List.replicate ((heapRead h sref).shape.headD 0) b)
      | .seq flags =>
        if flags.length ≠ (heapRead h sref).shape.headD 0 then
          (some (.maximizeLen ((heapRead h sref).shape.headD 0) flags.length),
            (if st.gathering = false then RankingSelector.start_gathering st
             else st), h)
        else
          RankingSelector.mergeStepHeap cfg
            (if st.gathering = false then RankingSelector.start_gathering st
             else st) keys h sref flags

/-- The negation loop writes only through reference `c`; reads at any other
reference are unaffected. -/
theorem foldl_write_preserve {c sref : Nat} (hne : sref ≠ c)
    (l : List (Nat × Bool)) :
    ∀ hh : List (NpArr α),
      heapRead (l.foldl (fun hh im =>
        if im.2 then hh
        else heapWrite hh c (negSlice0 (heapRead hh c) im.1)) hh) sref =
      heapRead hh sref := by
  induction l with
  | nil => intro hh; rfl
  | cons im rest ih =>
    intro hh
    rw [List.foldl_cons, ih]
    by_cases hb : im.2
    · rw [if_pos hb]
    · rw [if_neg hb]
      unfold heapRead heapWrite
      rw [List.getD_eq_getElem?_getD, List.getD_eq_getElem?_getD,
        List.getElem?_set_ne (fun hc => hne hc.symm),
        ← List.getD_eq_getElem?_getD]

/-- C10: `RankingSelector.add_possibilities` never mutates the caller's
samples array: on every path — validation failure, maximize-length failure,
all-flags-`True` merge (no write at all), or copy-and-negate merge (writes
through the fresh copy only) — the array at the caller's reference is
unchanged. -/
theorem C10_no_mutation (cfg : RankCfg κ α) (st : SelState κ α)
    (keys : List κ) (h : List (NpArr α)) (sref : Nat)
    (hs : sref < h.length) :
    heapRead
      (RankingSelector.add_possibilities_heap cfg st keys h sref).2.2 sref =
      heapRead h sref := by
  unfold RankingSelector.add_possibilities_heap
  have hmerge : ∀ (st1 : SelState κ α) (maximize : List Bool),
      heapRead (RankingSelector.mergeStepHeap cfg st1 keys h sref
        maximize).2.2 sref = heapRead h sref := by
    intro st1 maximize
    unfold RankingSelector.mergeStepHeap
    by_cases hall : maximize.all (· = true)
    · rw [if_pos hall]
    · rw [if_neg hall]
      dsimp only
      rw [foldl_write_preserve (show sref ≠ h.length by omega) _ _]
      unfold heapRead
      rw [List.getD_eq_getElem?_getD, List.getD_eq_getElem?_getD,
        List.getElem?_append_left hs]
  split
  · rfl
  · split
    · rfl
    · split
      · rfl
      · split
        · rfl
        · split
          · exact hmerge _ _
          · split
            · rfl
            · exact hmerge _ _

/-- Witness for C10: a `maximize = False` call (which copies and negates)
leaves the caller's array `cubeABC` intact on the heap. -/
theorem C10_no_mutation_witness :
    heapRead (RankingSelector.add_possibilities_heap cfgMin initState
        ["a", "b", "c"] [cubeABC] 0).2.2 0 = heapRead [cubeABC] 0 :=
  C10_no_mutation cfgMin initState ["a", "b", "c"] [cubeABC] 0 (by decide)

/-- Consistency of the two renderings of `add_possibilities` on a concrete
copy-and-negate run: the heap-level call's outcome and state agree with the
value-level call on the array stored at the reference. -/
theorem add_heap_agrees_example :
    ((RankingSelector.add_possibilities_heap cfgMin initState
        ["a", "b", "c"] [cubeABC] 0).1,
     (RankingSelector.add_possibilities_heap cfgMin initState
        ["a", "b", "c"] [cubeABC] 0).2.1) =
      RankingSelector.add_possibilities cfgMin initState
        ["a", "b", "c"] cubeABC := by
  decide
